import Mathlib

/-!
Verification of the heading-extraction core of the repository
(src/heading_extractor.py) against its natural-language specification.

The Python source is shallowly embedded: PDF geometry (PyMuPDF rectangles)
becomes a record of four rational coordinates, text spans / lines / blocks /
pages become nested lists carrying the same fields the layout provider
supplies, and every function of the source file is translated to a total
Lean function of the same name.  Python string operations are modelled by
structural functions over the character list of a Lean string, and Python
float arithmetic is modelled over the rationals, with round() modelled as
round-half-to-even.  Fallible external calls (PyMuPDF table and drawing
extraction) are modelled as Except values carried by the page.
-/

namespace HeadingExtractor

/-! ## Python string semantics -/

/-- Whitespace characters recognised by Python str.strip and str.split. -/
def isSpaceChar (c : Char) : Bool :=
  c = ' ' || c = '\t' || c = '\n' || c = '\r' || c = '\x0b' || c = '\x0c'

/-- Word characters of the regex class backslash-w (ASCII fragment). -/
def isWordChar (c : Char) : Bool :=
  c.isAlphanum || c = '_'

/-- Python str.lower (ASCII fragment). -/
def pyLower (s : String) : String :=
  (s.toList.map Char.toLower).asString

/-- Python len() on a string: number of characters. -/
def pyLen (s : String) : Nat :=
  s.toList.length

/-- Python str.strip(): drop leading and trailing whitespace. -/
def pyStrip (s : String) : String :=
  (((s.toList.dropWhile isSpaceChar).reverse.dropWhile isSpaceChar).reverse).asString

/-- Check that the character list s starts with the character list p. -/
def listStartsWith : List Char → List Char → Bool
  | _, [] => true
  | [], _ :: _ => false
  | c :: cs, p :: ps => c = p && listStartsWith cs ps

/-- Python str.startswith. -/
def pyStartsWith (s p : String) : Bool :=
  listStartsWith s.toList p.toList

/-- Python str.endswith. -/
def pyEndsWith (s p : String) : Bool :=
  listStartsWith s.toList.reverse p.toList.reverse

/-- Check that the character list sub occurs contiguously inside s
(Python substring membership, the in operator). -/
def listContainsSub (sub : List Char) : List Char → Bool
  | [] => sub.isEmpty
  | c :: cs => listStartsWith (c :: cs) sub || listContainsSub sub cs

/-- Python substring membership: sub in s. -/
def pyContainsSub (s sub : String) : Bool :=
  listContainsSub sub.toList s.toList

/-- Helper of pySplit: accumulate the current word (reversed) while walking. -/
def pyWordsGo (cur : List Char) : List Char → List (List Char)
  | [] => if cur.isEmpty then [] else [cur.reverse]
  | c :: cs =>
    if isSpaceChar c then
      if cur.isEmpty then pyWordsGo [] cs else cur.reverse :: pyWordsGo [] cs
    else pyWordsGo (c :: cur) cs

/-- Python str.split() with no separator: split on whitespace runs. -/
def pySplit (s : String) : List String :=
  (pyWordsGo [] s.toList).map List.asString

/-- Python str.count for a single character. -/
def pyCount (s : String) (c : Char) : Nat :=
  s.toList.count c

/-- Python round(): round half to even, as applied to exact rationals. -/
def pythonRound (q : ℚ) : ℤ :=
  let f := q.floor
  let r := q - (f : ℚ)
  if r < 1/2 then f
  else if (1/2 : ℚ) < r then f + 1
  else if f % 2 = 0 then f else f + 1

/-- Python str.isupper (ASCII fragment): at least one cased character and
every cased character uppercase. -/
def pyIsUpper (s : String) : Bool :=
  s.toList.any (fun c => c.isAlpha) && s.toList.all (fun c => !c.isAlpha || c.isUpper)

/-! ## Geometry: fitz.Rect -/

/-- A PyMuPDF rectangle: left, top, right, bottom coordinates. -/
structure Rect where
  x0 : ℚ
  y0 : ℚ
  x1 : ℚ
  y1 : ℚ
deriving DecidableEq, Repr

/-- fitz Rect.width. -/
def Rect.width (r : Rect) : ℚ := r.x1 - r.x0

/-- fitz Rect.height. -/
def Rect.height (r : Rect) : ℚ := r.y1 - r.y0

/-- fitz rect + (-m, -m, m, m): expand by m on each side. -/
def Rect.expand (r : Rect) (m : ℚ) : Rect :=
  ⟨r.x0 - m, r.y0 - m, r.x1 + m, r.y1 + m⟩

/-- fitz rect | rect: bounding-box union. -/
def Rect.union (r s : Rect) : Rect :=
  ⟨min r.x0 s.x0, min r.y0 s.y0, max r.x1 s.x1, max r.y1 s.y1⟩

/-- fitz Rect.is_empty: zero or negative extent in some axis. -/
def Rect.isEmpty (r : Rect) : Bool :=
  decide (r.x1 ≤ r.x0) || decide (r.y1 ≤ r.y0)

/-- fitz rect intersection (componentwise max of lows, min of highs). -/
def Rect.inter (r s : Rect) : Rect :=
  ⟨max r.x0 s.x0, max r.y0 s.y0, min r.x1 s.x1, min r.y1 s.y1⟩

/-- fitz Rect.intersects: the intersection rectangle is not empty. -/
def Rect.intersects (r s : Rect) : Bool :=
  !(r.inter s).isEmpty

/-- fitz Rect.contains for a rectangle argument. -/
def Rect.containsRect (r s : Rect) : Bool :=
  decide (r.x0 ≤ s.x0) && decide (s.x0 ≤ s.x1) && decide (s.x1 ≤ r.x1) &&
  decide (r.y0 ≤ s.y0) && decide (s.y0 ≤ s.y1) && decide (s.y1 ≤ r.y1)

/-- Componentwise coverage: every point of r lies in s (used to state the
amended merge-coverage property). -/
def Rect.insideOf (r s : Rect) : Prop :=
  s.x0 ≤ r.x0 ∧ s.y0 ≤ r.y0 ∧ r.x1 ≤ s.x1 ∧ r.y1 ≤ s.y1

instance (r s : Rect) : Decidable (Rect.insideOf r s) := by
  unfold Rect.insideOf; infer_instance

/-! ## Data model (layout-provider output) -/

/-- A text span: minimal run of text with one font size, name and flags. -/
structure Span where
  text : String
  size : ℚ
  font : String
  flags : Nat
deriving DecidableEq, Repr

/-- A text line: bounding box plus ordered spans. -/
structure Line where
  bbox : Rect
  spans : List Span
deriving DecidableEq, Repr

/-- A block from get_text("dict"): type 0 is text, type 1 is image
(images carry no lines). -/
structure Block where
  btype : ℤ
  bbox : Rect
  lines : List Line
deriving DecidableEq, Repr

instance {ε α : Type} [DecidableEq ε] [DecidableEq α] : DecidableEq (Except ε α) := fun a b =>
  match a, b with
  | .ok a, .ok b => if h : a = b then .isTrue (by rw [h]) else .isFalse (by simp [h])
  | .error a, .error b => if h : a = b then .isTrue (by rw [h]) else .isFalse (by simp [h])
  | .ok _, .error _ => .isFalse (by simp)
  | .error _, .ok _ => .isFalse (by simp)

/-- A page: dimensions, structured text, and the results of the two
fallible external extraction calls (find_tables and get_drawings, the
latter already restricted to its rectangle items). -/
structure Page where
  width : ℚ
  height : ℚ
  blocks : List Block
  tablesResult : Except Unit (List Rect)
  drawingsResult : Except Unit (List Rect)
deriving DecidableEq, Repr

/-- A document that opened successfully: metadata title and pages. -/
structure Doc where
  metadataTitle : Option String
  pages : List Page
deriving DecidableEq, Repr

/-- An output heading record. -/
structure Heading where
  level : String
  text : String
  page : Nat
deriving DecidableEq, Repr

/-- The output of extract_outline. -/
structure OutlineResult where
  title : String
  outline : List Heading
deriving DecidableEq, Repr

/-! ## GENERIC_JUNK_PATTERNS -/

/-- Regex tail: optional spaces, one or more digits, optional spaces, end. -/
def matchDigitsSpacesEnd (cs : List Char) : Bool :=
  let cs1 := cs.dropWhile isSpaceChar
  let digits := cs1.takeWhile Char.isDigit
  let rest := cs1.dropWhile Char.isDigit
  !digits.isEmpty && (rest.dropWhile isSpaceChar).isEmpty

/-- Pattern (page|p.) digits, case-insensitive, anchored both ends. -/
def junkPagePattern (s : String) : Bool :=
  let cs := (pyLower s).toList
  if listStartsWith cs "page".toList then matchDigitsSpacesEnd (cs.drop 4)
  else if listStartsWith cs "p.".toList then matchDigitsSpacesEnd (cs.drop 2)
  else false

/-- Pattern of digits only, anchored both ends. -/
def junkDigitsPattern (s : String) : Bool :=
  !s.toList.isEmpty && s.toList.all Char.isDigit

/-- Pattern (www.|http|https) at the start, case-insensitive. -/
def junkUrlPattern (s : String) : Bool :=
  pyStartsWith (pyLower s) "www." || pyStartsWith (pyLower s) "http"

/-- Pattern at-sign, word characters, dot, word characters, at the start
(re.match anchors at position 0). -/
def junkEmailPattern (s : String) : Bool :=
  match s.toList with
  | '@' :: rest =>
    let w1 := rest.takeWhile isWordChar
    let r2 := rest.dropWhile isWordChar
    !w1.isEmpty &&
      (match r2 with
       | '.' :: r3 => !(r3.takeWhile isWordChar).isEmpty
       | _ => false)
  | _ => false

/-- Pattern of a lone bullet or hyphen surrounded by spaces. -/
def junkBulletPattern (s : String) : Bool :=
  match s.toList.dropWhile isSpaceChar with
  | c :: rest => (c = '•' || c = '-') && (rest.dropWhile isSpaceChar).isEmpty
  | [] => false

/-- Pattern of a bare form-field label followed by spaces or colons. -/
def junkFormLabelPattern (s : String) : Bool :=
  let low := pyLower s
  ["date", "signature", "for", "time", "address", "rsvp", "phone", "email"].any
    (fun w => pyStartsWith low w &&
      (low.toList.drop (pyLen w)).all (fun c => isSpaceChar c || c = ':'))

/-- Pattern of common boilerplate words followed by word characters or spaces. -/
def junkBoilerplatePattern (s : String) : Bool :=
  let low := pyLower s
  ["closed", "parents", "please", "hope"].any
    (fun w => pyStartsWith low w &&
      (low.toList.drop (pyLen w)).all (fun c => isSpaceChar c || isWordChar c))

/-- Disjunction of the GENERIC_JUNK_PATTERNS table (any pattern matches). -/
def genericJunkMatch (s : String) : Bool :=
  junkPagePattern s || junkDigitsPattern s || junkUrlPattern s || junkEmailPattern s ||
  junkBulletPattern s || junkFormLabelPattern s || junkBoilerplatePattern s

/-! ## ExcludedRegionDetector: get_table_areas -/

/-- Text of a block: every span text followed by a space, concatenated over
all lines, then stripped. -/
def blockText (b : Block) : String :=
  pyStrip (String.join (b.lines.map (fun l => String.join (l.spans.map (fun s => s.text ++ " ")))))

/-- Box-content indicator labels (box_indicators in the source). -/
def boxIndicators : List String :=
  ["mission statement:", "goals:", "objectives:", "summary:", "abstract:",
   "note:", "important:", "warning:", "caution:", "definition:", "example:",
   "key points:", "highlights:"]

/-- The skip-likely-headings test of get_table_areas: at most five words,
under fifty characters, and either all uppercase or containing a section
word. -/
def looksLikeHeadingBlock (btext : String) : Bool :=
  let words := pySplit btext
  decide (words.length ≤ 5) && decide (pyLen btext < 50) &&
    (pyIsUpper btext ||
      words.any (fun w => ["pathway", "options", "section", "chapter", "part"].contains (pyLower w)))

/-- The is_boxed_content decision for one block, given the filtered drawing
rectangles, all blocks of the page, and the page width. -/
def isBoxedContent (pageWidth : ℚ) (rects : List Rect) (blocks : List Block) (b : Block) : Bool :=
  let btext := blockText b
  let words := pySplit btext
  if boxIndicators.any (fun ind => pyStartsWith (pyLower btext) ind) then
    true
  else if decide (10 < words.length) && decide (100 < pyLen btext) then
    match b.lines with
    | [] => false
    | l0 :: _ =>
      let firstLineX := l0.bbox.x0
      if decide (pageWidth * (8/100) < firstLineX) && decide (b.bbox.width < pageWidth * (85/100)) then
        if rects.any (fun r => (r.expand 5).containsRect b.bbox || r.intersects b.bbox) then
          true
        else
          let similarIndentCount :=
            (blocks.filter (fun ob =>
              decide (ob ≠ b) &&
                (match ob.lines with
                 | [] => false
                 | ol0 :: _ => decide (|ol0.bbox.x0 - firstLineX| < 15)))).length
          decide (similarIndentCount ≤ 1)
      else false
  else if pyContainsSub btext "•" || pyContainsSub btext "●" || decide (2 < pyCount btext '\n') then
    rects.any (fun r => r.intersects b.bbox)
  else false

/-- The candidate areas accumulated by get_table_areas before merging:
table bounding boxes, filtered drawing rectangles, and padded boxed text
blocks.  A fault in find_tables leaves nothing accumulated; a fault in
get_drawings leaves only the table areas accumulated (the except clause of
the source keeps whatever was appended before the fault). -/
def rawAreas (page : Page) : List Rect :=
  match page.tablesResult with
  | .error _ => []
  | .ok tbls =>
    match page.drawingsResult with
    | .error _ => tbls
    | .ok drws =>
      let rects := drws.filter (fun r => decide (30 < r.width) && decide (15 < r.height))
      let boxed := page.blocks.filterMap (fun b =>
        if b.btype ≠ 0 then none
        else if looksLikeHeadingBlock (blockText b) then none
        else if isBoxedContent page.width rects page.blocks b then some (b.bbox.expand 3)
        else none)
      tbls ++ rects ++ boxed

/-- Sort order of the merge phase: by top edge, then by left edge
(Python sorts stably on the key pair (y0, x0)). -/
def rectSortLe (a b : Rect) : Bool :=
  decide (a.y0 < b.y0) || (decide (a.y0 = b.y0) && decide (a.x0 ≤ b.x0))

/-- Merge one area into the first accumulated region whose 8-unit
expansion intersects it, returning none when no region qualifies. -/
def mergeInto : List Rect → Rect → Option (List Rect)
  | [], _ => none
  | e :: es, area =>
    if (e.expand 8).intersects area then some ((e.union area) :: es)
    else
      match mergeInto es area with
      | some es2 => some (e :: es2)
      | none => none

/-- One step of the merge fold: merge into an existing region or append a
new region. -/
def mergeStep (finals : List Rect) (area : Rect) : List Rect :=
  match mergeInto finals area with
  | some fs => fs
  | none => finals ++ [area]

/-- The merge phase of get_table_areas: sort all candidate areas by
(top, left) and fold them into accumulated regions. -/
def merge_areas (areas : List Rect) : List Rect :=
  (areas.mergeSort rectSortLe).foldl mergeStep []

/-- get_table_areas: accumulate table, drawing and boxed-block areas
(degrading to the partial list on an extraction fault), then merge. -/
def get_table_areas (page : Page) : List Rect :=
  merge_areas (rawAreas page)

/-- is_text_in_table: the text bbox intersects some excluded area expanded
by the margin. -/
def is_text_in_table (textBbox : Rect) (excludedAreas : List Rect) (margin : ℚ) : Bool :=
  excludedAreas.any (fun a => textBbox.intersects (a.expand margin))

/-- Python " ".join: interleave a single space between the strings. -/
def pyJoinSpace : List String → String
  | [] => ""
  | s :: rest => rest.foldl (fun acc t => acc ++ " " ++ t) s

/-! ## TitleResolver: extract_title_from_document -/

/-- A first-page title candidate. -/
structure TitleCandidate where
  text : String
  font_size : ℤ
  position : ℚ
  length : Nat
deriving DecidableEq, Repr

/-- Sort order of title candidates: key (font_size, -position) descending,
realised as a stable sort (Python sort with reverse=True keeps the original
order of equal keys). -/
def candidateSortLe (a b : TitleCandidate) : Bool :=
  decide (b.font_size < a.font_size) ||
    (decide (a.font_size = b.font_size) && decide (a.position ≤ b.position))

/-- The layout-analysis part of extract_title_from_document, over the first
page. -/
def extractTitleFromFirstPage (first_page : Page) : String :=
  let excluded_areas := get_table_areas first_page
  let page_height := first_page.height
  let title_candidates := first_page.blocks.flatMap (fun block =>
    block.lines.filterMap (fun line =>
      match line.spans with
      | [] => none
      | sp0 :: _ =>
        let bbox := line.bbox
        let relative_y := if 0 < page_height then bbox.y0 / page_height else 0
        if is_text_in_table bbox excluded_areas 2 || decide ((2/5 : ℚ) < relative_y) then none
        else
          let text := pyStrip (pyJoinSpace (line.spans.map Span.text))
          if text.toList.isEmpty || decide (pyLen text < 3) || genericJunkMatch text ||
              pyStartsWith (pyLower text) "page " || pyStartsWith (pyLower text) "figure " ||
              pyStartsWith (pyLower text) "table " || decide (200 < pyLen text) then none
          else some ⟨text, pythonRound sp0.size, relative_y, pyLen text⟩))
  match title_candidates.mergeSort candidateSortLe with
  | [] => ""
  | c0 :: rest =>
    match (c0 :: rest).find? (fun c =>
        decide (3 ≤ (pySplit c.text).length) && decide ((pySplit c.text).length ≤ 20) &&
        !pyEndsWith c.text "." && decide (10 ≤ pyLen c.text)) with
    | some c => c.text
    | none => c0.text

/-- extract_title_from_document: a non-empty metadata title under 100
characters wins outright; otherwise the first page is analysed. -/
def extract_title_from_document (metadataTitle : Option String) (first_page : Page) : String :=
  match metadataTitle with
  | some mt =>
    if !mt.toList.isEmpty && !(pyStrip mt).toList.isEmpty then
      let title := pyStrip mt
      if pyLen title < 100 then title
      else extractTitleFromFirstPage first_page
    else extractTitleFromFirstPage first_page
  | none => extractTitleFromFirstPage first_page

/-! ## Line-level predicates -/

/-- is_bold_or_emphasized: some span has the bold flag bit or a bold-ish
font-name fragment. -/
def is_bold_or_emphasized (spans : List Span) : Bool :=
  spans.any (fun sp =>
    decide (Nat.land sp.flags 16 ≠ 0) ||
      ["bold", "black", "heavy"].any (fun ind => pyContainsSub (pyLower sp.font) ind))

/-- is_simple_junk: junk patterns plus shape rules on the stripped text. -/
def is_simple_junk (text : String) : Bool :=
  let t := pyStrip text
  t.toList.isEmpty || genericJunkMatch t ||
  decide (pyLen t < 2) || decide (pyLen t / 2 < pyCount t '_') ||
  decide (pyLen t / 2 < pyCount t '-') ||
  (decide (pyCount t ' ' = 0) && decide (50 < pyLen t))

/-- A line record of the per-page extraction loop (potential_lines entry). -/
structure LineData where
  text : String
  font_size : ℤ
  bbox : Rect
  is_bold : Bool
deriving DecidableEq, Repr

/-- should_combine_lines with max_distance 8: close vertically, near-equal
font size, near-equal left edge. -/
def should_combine_lines (line1 line2 : LineData) : Bool :=
  decide (|line2.bbox.y0 - line1.bbox.y1| ≤ 8) &&
  decide (|(line1.font_size : ℤ) - line2.font_size| ≤ 1) &&
  decide (|line1.bbox.x0 - line2.bbox.x0| ≤ 15)

/-! ## FontHistogramBuilder -/

/-- The rounded span sizes recorded on one page for the font histogram:
spans of lines outside the excluded areas, keeping positive sizes only. -/
def pageRecordedSizes (page : Page) : List ℤ :=
  let excluded_areas := get_table_areas page
  page.blocks.flatMap (fun block =>
    block.lines.flatMap (fun line =>
      if is_text_in_table line.bbox excluded_areas 2 then []
      else line.spans.filterMap (fun span =>
        let size := pythonRound span.size
        if 0 < size then some size else none)))

/-- All recorded sizes of the document, in page-then-line-then-span order. -/
def docRecordedSizes (doc : Doc) : List ℤ :=
  doc.pages.flatMap pageRecordedSizes

/-- Distinct values of a list in order of first occurrence (the key order
of a Python Counter). -/
def insertionOrderKeys (l : List ℤ) : List ℤ :=
  l.foldl (fun acc a => if a ∈ acc then acc else acc ++ [a]) []

/-- Counter.most_common(1): the value with the greatest count, the earliest
first occurrence winning ties (most_common sorts stably by count). -/
def mostCommon (l : List ℤ) : Option ℤ :=
  match insertionOrderKeys l with
  | [] => none
  | k :: ks => some (ks.foldl (fun best s => if l.count best < l.count s then s else best) k)

/-- body_size: the mode of the document font histogram (0 when empty; the
source only uses it when the histogram is non-empty). -/
def body_size (doc : Doc) : ℤ :=
  (mostCommon (docRecordedSizes doc)).getD 0

/-- heading_sizes: the distinct recorded sizes strictly greater than the
body size, sorted descending. -/
def heading_sizes (doc : Doc) : List ℤ :=
  ((insertionOrderKeys (docRecordedSizes doc)).filter
    (fun s => decide (body_size doc < s))).mergeSort (fun a b => decide (b ≤ a))

/-- level_map lookup: heading_sizes[i] maps to the label H(i+1). -/
def size_rule_label (doc : Doc) (fs : ℤ) : String :=
  "H" ++ toString ((heading_sizes doc).indexOf fs + 1)

/-! ## Per-page line collection and aggregation -/

/-- The potential_lines list of one page: lines outside excluded areas whose
joined text survives the junk filter and (on page one) differs from the
title, each carrying its first-span rounded size, bbox and bold flag. -/
def potentialLines (title : String) (pageNum : Nat) (page : Page) : List LineData :=
  let excluded_areas := get_table_areas page
  page.blocks.flatMap (fun block =>
    block.lines.filterMap (fun line =>
      match line.spans with
      | [] => none
      | sp0 :: _ =>
        if is_text_in_table line.bbox excluded_areas 2 then none
        else
          let text := pyStrip (pyJoinSpace (line.spans.map Span.text))
          if text.toList.isEmpty || is_simple_junk text ||
              (decide (pageNum = 0) && !title.toList.isEmpty && decide (pyStrip text = pyStrip title)) then
            none
          else some ⟨text, pythonRound sp0.size, line.bbox, is_bold_or_emphasized line.spans⟩))

/-- The inner combination loop of extract_outline: starting from the run
opened by current (whose accumulated text is combined and whose last
appended line is prev), keep absorbing the next line while
should_combine_lines accepts it, then start a new run. -/
def combine_go (current : LineData) (combined : String) (prev : LineData) :
    List LineData → List (LineData × String)
  | [] => [(current, combined)]
  | l :: ls =>
    if should_combine_lines prev l then combine_go current (combined ++ " " ++ l.text) l ls
    else (current, combined) :: combine_go l l.text l ls

/-- The combination pass: each resulting pair is a run (its first line,
used for classification, and its space-joined combined text). -/
def combine_lines : List LineData → List (LineData × String)
  | [] => []
  | l :: ls => combine_go l l.text l ls

/-! ## HeadingClassifier -/

/-- The size-rule guard: the first-span size is a level-map key and the
combined text has 1 to 20 words and at least 3 characters. -/
def sizeRuleFires (doc : Doc) (text : String) (fs : ℤ) : Bool :=
  decide (fs ∈ heading_sizes doc) &&
  decide ((pySplit text).length ≤ 20) && decide (1 ≤ (pySplit text).length) &&
  decide (3 ≤ pyLen text)

/-- The percentage-or-currency test of the bold fallback: a digit directly
followed by a percent sign, or a dollar or rupee sign anywhere. -/
def containsDigitPercent : List Char → Bool
  | c1 :: c2 :: rest => (c1.isDigit && c2 = '%') || containsDigitPercent (c2 :: rest)
  | _ => false

/-- The re.search for a percentage or currency token. -/
def hasDigitPercentOrCurrency (text : String) : Bool :=
  containsDigitPercent text.toList || text.toList.contains '$' || text.toList.contains '₹'

/-- The bold-fallback guard: bold, size at least the body size, 1 to 15
words, at least 3 characters, no trailing period, no percentage or
currency token. -/
def boldRuleFires (doc : Doc) (text : String) (fs : ℤ) (isBold : Bool) : Bool :=
  isBold && decide (body_size doc ≤ fs) &&
  decide ((pySplit text).length ≤ 15) && decide (1 ≤ (pySplit text).length) &&
  decide (3 ≤ pyLen text) && !pyEndsWith text "." && !hasDigitPercentOrCurrency text

/-- The bold-fallback level number as written in the source: N+1 for sizes
above the body size, otherwise N+2, with the extra equal-size-and-colon
clause forcing N+2. -/
def bold_rule_level (n : Nat) (body fs : ℤ) (text : String) : Nat :=
  let level_num := if body < fs then n + 1 else n + 2
  if decide (fs = body) && pyEndsWith (pyStrip text) ":" then n + 2 else level_num

/-- One iteration of the classification loop on an aggregated run: skip
seen text, else try the size rule, else the bold fallback, else drop. -/
def classifyRun (doc : Doc) (pageNum : Nat) (st : List Heading × List String)
    (run : LineData × String) : List Heading × List String :=
  let text := run.2
  if text ∈ st.2 then st
  else if sizeRuleFires doc text run.1.font_size then
    (st.1 ++ [⟨size_rule_label doc run.1.font_size, text, pageNum + 1⟩], st.2 ++ [text])
  else if boldRuleFires doc text run.1.font_size run.1.is_bold then
    (st.1 ++ [⟨"H" ++ toString (bold_rule_level (heading_sizes doc).length (body_size doc) run.1.font_size text), text, pageNum + 1⟩],
     st.2 ++ [text])
  else st

/-- The whole per-page extraction pass of one page. -/
def processPage (doc : Doc) (title : String) (st : List Heading × List String)
    (pageNum : Nat) (page : Page) : List Heading × List String :=
  (combine_lines (potentialLines title pageNum page)).foldl (classifyRun doc pageNum) st

/-- extract_outline on a successfully opened document: empty documents
yield an empty result, an empty font histogram yields the bare title, and
otherwise every page is scanned for headings with a document-wide
dedup set. -/
def extract_outline (doc : Doc) : OutlineResult :=
  match doc.pages with
  | [] => ⟨"", []⟩
  | p0 :: _ =>
    let title := extract_title_from_document doc.metadataTitle p0
    if (docRecordedSizes doc).isEmpty then ⟨title, []⟩
    else
      ⟨title,
        (doc.pages.enum.foldl (fun st np => processPage doc title st np.1 np.2) ([], [])).1⟩

/-! ## Shared helper lemmas -/

/-- A foldl preserves any invariant its step preserves. -/
theorem foldl_inv {α β : Type} (P : α → Prop) (f : α → β → α)
    (hf : ∀ a b, P a → P (f a b)) : ∀ (l : List β) (a : α), P a → P (l.foldl f a) := by
  intro l
  induction l with
  | nil => intro a ha; exact ha
  | cons b t ih => intro a ha; exact ih (f a b) (hf a b ha)

/-! ## Claim C10 -/

/-- Claim C10: a document that opens successfully but has zero pages yields
the empty title and empty outline, whatever its metadata says: no title
resolution, histogram or heading extraction influences the result. -/
theorem extract_outline_empty_doc (mt : Option String) :
    extract_outline ⟨mt, []⟩ = ⟨"", []⟩ := rfl

/-! ## Claim C4 -/

/-- The bold-fallback level assignment with the equal-size-and-colon clause
deleted, following the words of the specification. -/
def bold_rule_level_noclause (n : Nat) (body fs : ℤ) : Nat :=
  if body < fs then n + 1 else n + 2

/-- Claim C4: the equal-size-and-colon clause of the bold fallback is
redundant: deleting it leaves an extensionally equal classifier, sizes
above the body size get level N+1, and sizes equal to the body size get
level N+2 whether or not the text ends with a colon. -/
theorem bold_rule_level_clause_redundant :
    (∀ (n : Nat) (body fs : ℤ) (text : String),
        bold_rule_level n body fs text = bold_rule_level_noclause n body fs) ∧
    (∀ (n : Nat) (body fs : ℤ) (text : String), body < fs →
        bold_rule_level n body fs text = n + 1) ∧
    (∀ (n : Nat) (body fs : ℤ) (text : String), fs = body →
        bold_rule_level n body fs text = n + 2) := by
  have key : ∀ (n : Nat) (body fs : ℤ) (text : String),
      bold_rule_level n body fs text = bold_rule_level_noclause n body fs := by
    intro n body fs text
    unfold bold_rule_level bold_rule_level_noclause
    by_cases h : fs = body
    · subst h
      simp [lt_irrefl]
    · simp [h]
  refine ⟨key, ?_, ?_⟩
  · intro n body fs text hlt
    rw [key]
    unfold bold_rule_level_noclause
    simp [hlt]
  · intro n body fs text heq
    subst heq
    rw [key]
    unfold bold_rule_level_noclause
    simp [lt_irrefl]

/-- Witness for C4 at concrete inputs. -/
theorem bold_rule_level_clause_redundant_witness :
    bold_rule_level 1 10 12 "Intro" = bold_rule_level_noclause 1 10 12 ∧
    bold_rule_level 1 10 12 "Intro" = 2 ∧
    bold_rule_level 1 10 10 "Memo:" = 3 :=
  ⟨bold_rule_level_clause_redundant.1 1 10 12 "Intro",
   bold_rule_level_clause_redundant.2.1 1 10 12 "Intro" (by decide),
   bold_rule_level_clause_redundant.2.2 1 10 10 "Memo:" rfl⟩

/-! ## Claim C8 -/

/-- A page on which table extraction succeeds and drawing extraction
faults. -/
def faultPage : Page := ⟨100, 100, [], .ok [⟨0, 0, 50, 50⟩], .error ()⟩

/-- Counterexample to claim C8 as stated: on faultPage the drawing
extraction faults, yet get_table_areas returns the table area accumulated
before the fault rather than zero regions. -/
theorem get_table_areas_fault_counterexample :
    faultPage.drawingsResult = .error () ∧
    get_table_areas faultPage = [⟨0, 0, 50, 50⟩] ∧
    get_table_areas faultPage ≠ [] := by
  with_unfolding_all decide

/-- Claim C8 as amended: a fault degrades to the areas accumulated before
it, so a fault in table detection (the first source) gives zero regions,
while a fault in drawing extraction gives exactly the merged table areas. -/
theorem get_table_areas_fault_degrades :
    (∀ page : Page, page.tablesResult = .error () → get_table_areas page = []) ∧
    (∀ (page : Page) (tbls : List Rect), page.tablesResult = .ok tbls →
        page.drawingsResult = .error () → get_table_areas page = merge_areas tbls) := by
  constructor
  · intro page h
    unfold get_table_areas rawAreas
    rw [h]
    simp [merge_areas, List.mergeSort_nil]
  · intro page tbls h1 h2
    unfold get_table_areas rawAreas
    rw [h1, h2]

/-- A page whose table extraction itself faults. -/
def tableFaultPage : Page := ⟨100, 100, [], .error (), .ok []⟩

/-- Witness for the amended C8 behaviour at concrete pages. -/
theorem get_table_areas_fault_degrades_witness :
    get_table_areas tableFaultPage = [] ∧
    get_table_areas faultPage = merge_areas [⟨0, 0, 50, 50⟩] :=
  ⟨get_table_areas_fault_degrades.1 tableFaultPage rfl,
   get_table_areas_fault_degrades.2 faultPage [⟨0, 0, 50, 50⟩] rfl rfl⟩

/-! ## Claim C1 -/

/-- A page whose three table areas defeat the single-pass merge: merging
the third area enlarges the first accumulated region until it overlaps the
second one. -/
def overlapPage : Page :=
  ⟨200, 200, [], .ok [⟨0, 0, 10, 10⟩, ⟨100, 0, 110, 10⟩, ⟨0, 5, 200, 6⟩], .ok []⟩

/-- Counterexample to claim C1 as stated: get_table_areas can return two
distinct rectangles with a non-empty (positive-area) intersection. -/
theorem get_table_areas_overlap_counterexample :
    ∃ a ∈ get_table_areas overlapPage, ∃ b ∈ get_table_areas overlapPage,
      a ≠ b ∧ Rect.intersects a b = true := by
  with_unfolding_all decide

/-- A successful mergeInto keeps the number of accumulated regions. -/
theorem mergeInto_length : ∀ (finals : List Rect) (area : Rect) (fs : List Rect),
    mergeInto finals area = some fs → fs.length = finals.length := by
  intro finals
  induction finals with
  | nil => intro area fs h; simp [mergeInto] at h
  | cons e es ih =>
    intro area fs h
    unfold mergeInto at h
    by_cases hi : (e.expand 8).intersects area
    · simp [hi] at h
      subst h
      simp
    · simp [hi] at h
      cases he : mergeInto es area with
      | none => rw [he] at h; exact absurd h (by simp)
      | some es2 =>
        rw [he] at h
        simp at h
        subst h
        simp [ih area es2 he]

/-- When mergeInto fails, no accumulated region intersects the candidate
even after the 8-unit expansion. -/
theorem mergeInto_none : ∀ (finals : List Rect) (area : Rect),
    mergeInto finals area = none → ∀ e ∈ finals, (e.expand 8).intersects area = false := by
  intro finals
  induction finals with
  | nil => intro area _ e he; exact absurd he (List.not_mem_nil e)
  | cons f fs ih =>
    intro area h e he
    unfold mergeInto at h
    by_cases hi : (f.expand 8).intersects area
    · simp [hi] at h
    · simp [hi] at h
      rcases List.mem_cons.mp he with rfl | hmem
      · exact Bool.of_not_eq_true hi
      · cases hrec : mergeInto fs area with
        | none => exact ih area hrec e hmem
        | some es2 => rw [hrec] at h; exact absurd h (by simp)

/-- Claim C1 as amended: each candidate that starts a new accumulated
region does not, at that moment, intersect any previously accumulated
region even when that region is expanded by the 8-unit merge margin.  The
final region list itself can still contain overlapping rectangles, because
a later merge can enlarge an earlier region (see the counterexample). -/
theorem mergeStep_new_region_separated (finals : List Rect) (area : Rect)
    (h : mergeStep finals area = finals ++ [area]) :
    ∀ e ∈ finals, (e.expand 8).intersects area = false := by
  cases hm : mergeInto finals area with
  | none => exact mergeInto_none finals area hm
  | some fs =>
    exfalso
    unfold mergeStep at h
    rw [hm] at h
    simp at h
    have hlen := mergeInto_length finals area fs hm
    rw [h] at hlen
    simp at hlen

/-- Witness for the amended C1 at a concrete step. -/
theorem mergeStep_new_region_separated_witness :
    mergeStep [(⟨0, 0, 10, 10⟩ : Rect)] ⟨50, 50, 60, 60⟩ =
      [(⟨0, 0, 10, 10⟩ : Rect)] ++ [⟨50, 50, 60, 60⟩] ∧
    ∀ e ∈ [(⟨0, 0, 10, 10⟩ : Rect)], (e.expand 8).intersects ⟨50, 50, 60, 60⟩ = false :=
  ⟨by with_unfolding_all decide,
   mergeStep_new_region_separated [⟨0, 0, 10, 10⟩] ⟨50, 50, 60, 60⟩
     (by with_unfolding_all decide)⟩

/-! ## Claim C2 -/

/-- Three candidate regions on which the merge fold is neither idempotent
nor order-insensitive: the last two share the sort key (top and left
edge), so a permutation survives the stable sort. -/
def fragileAreas : List Rect := [⟨50, 0, 60, 13⟩, ⟨0, 20, 10, 30⟩, ⟨0, 20, 100, 30⟩]

/-- The same candidates with the two equal-key regions swapped. -/
def fragileAreasPerm : List Rect := [⟨50, 0, 60, 13⟩, ⟨0, 20, 100, 30⟩, ⟨0, 20, 10, 30⟩]

/-- Counterexample to claim C2 as stated: re-running the merge fold on its
own output loses a region (idempotence fails), and the permuted input
produces a different final region set (order-insensitivity fails). -/
theorem merge_areas_not_idempotent_counterexample :
    (⟨0, 20, 10, 30⟩ : Rect) ∈ merge_areas fragileAreas ∧
    (⟨0, 20, 10, 30⟩ : Rect) ∉ merge_areas (merge_areas fragileAreas) ∧
    fragileAreas.Perm fragileAreasPerm ∧
    (⟨0, 20, 10, 30⟩ : Rect) ∉ merge_areas fragileAreasPerm := by
  with_unfolding_all decide

/-- Componentwise coverage is reflexive. -/
theorem insideOf_refl (r : Rect) : r.insideOf r :=
  ⟨le_refl _, le_refl _, le_refl _, le_refl _⟩

/-- Componentwise coverage is transitive. -/
theorem insideOf_trans {r s t : Rect} (h1 : r.insideOf s) (h2 : s.insideOf t) :
    r.insideOf t :=
  ⟨le_trans h2.1 h1.1, le_trans h2.2.1 h1.2.1,
   le_trans h1.2.2.1 h2.2.2.1, le_trans h1.2.2.2 h2.2.2.2⟩

/-- The bounding-box union covers its left argument. -/
theorem insideOf_union_left (r s : Rect) : r.insideOf (r.union s) :=
  ⟨min_le_left _ _, min_le_left _ _, le_max_left _ _, le_max_left _ _⟩

/-- The bounding-box union covers its right argument. -/
theorem insideOf_union_right (r s : Rect) : s.insideOf (r.union s) :=
  ⟨min_le_right _ _, min_le_right _ _, le_max_right _ _, le_max_right _ _⟩

/-- A successful mergeInto covers every previously accumulated region. -/
theorem mergeInto_mono : ∀ (finals : List Rect) (area : Rect) (fs : List Rect),
    mergeInto finals area = some fs → ∀ s ∈ finals, ∃ t ∈ fs, s.insideOf t := by
  intro finals
  induction finals with
  | nil => intro area fs h; simp [mergeInto] at h
  | cons e es ih =>
    intro area fs h s hs
    unfold mergeInto at h
    by_cases hi : (e.expand 8).intersects area
    · simp [hi] at h
      subst h
      rcases List.mem_cons.mp hs with rfl | hmem
      · exact ⟨s.union area, List.mem_cons_self _ _, insideOf_union_left s area⟩
      · exact ⟨s, List.mem_cons_of_mem _ hmem, insideOf_refl s⟩
    · simp [hi] at h
      cases he : mergeInto es area with
      | none => rw [he] at h; exact absurd h (by simp)
      | some es2 =>
        rw [he] at h
        simp at h
        subst h
        rcases List.mem_cons.mp hs with rfl | hmem
        · exact ⟨s, List.mem_cons_self _ _, insideOf_refl s⟩
        · rcases ih area es2 he s hmem with ⟨t, ht, hst⟩
          exact ⟨t, List.mem_cons_of_mem _ ht, hst⟩

/-- A successful mergeInto covers the candidate area. -/
theorem mergeInto_covers : ∀ (finals : List Rect) (area : Rect) (fs : List Rect),
    mergeInto finals area = some fs → ∃ t ∈ fs, area.insideOf t := by
  intro finals
  induction finals with
  | nil => intro area fs h; simp [mergeInto] at h
  | cons e es ih =>
    intro area fs h
    unfold mergeInto at h
    by_cases hi : (e.expand 8).intersects area
    · simp [hi] at h
      subst h
      exact ⟨e.union area, List.mem_cons_self _ _, insideOf_union_right e area⟩
    · simp [hi] at h
      cases he : mergeInto es area with
      | none => rw [he] at h; exact absurd h (by simp)
      | some es2 =>
        rw [he] at h
        simp at h
        subst h
        rcases ih area es2 he with ⟨t, ht, hat⟩
        exact ⟨t, List.mem_cons_of_mem _ ht, hat⟩

/-- One merge step covers every previously accumulated region. -/
theorem mergeStep_mono (finals : List Rect) (area : Rect) :
    ∀ s ∈ finals, ∃ t ∈ mergeStep finals area, s.insideOf t := by
  intro s hs
  unfold mergeStep
  cases hm : mergeInto finals area with
  | none => exact ⟨s, List.mem_append_left _ hs, insideOf_refl s⟩
  | some fs => exact mergeInto_mono finals area fs hm s hs

/-- One merge step covers the candidate area it consumes. -/
theorem mergeStep_covers (finals : List Rect) (area : Rect) :
    ∃ t ∈ mergeStep finals area, area.insideOf t := by
  unfold mergeStep
  cases hm : mergeInto finals area with
  | none => exact ⟨area, List.mem_append_right _ (List.mem_singleton.mpr rfl), insideOf_refl area⟩
  | some fs => exact mergeInto_covers finals area fs hm

/-- The merge fold covers everything already covered by the accumulator. -/
theorem foldl_mergeStep_mono : ∀ (todo : List Rect) (acc : List Rect) (s : Rect),
    s ∈ acc → ∃ t ∈ todo.foldl mergeStep acc, s.insideOf t := by
  intro todo
  induction todo with
  | nil => intro acc s hs; exact ⟨s, hs, insideOf_refl s⟩
  | cons a rest ih =>
    intro acc s hs
    rcases mergeStep_mono acc a s hs with ⟨t, ht, hst⟩
    rcases ih (mergeStep acc a) t ht with ⟨u, hu, htu⟩
    exact ⟨u, hu, insideOf_trans hst htu⟩

/-- The merge fold covers every area it processes. -/
theorem foldl_mergeStep_covers : ∀ (todo : List Rect) (acc : List Rect) (r : Rect),
    r ∈ todo → ∃ t ∈ todo.foldl mergeStep acc, r.insideOf t := by
  intro todo
  induction todo with
  | nil => intro acc r hr; exact absurd hr (List.not_mem_nil r)
  | cons a rest ih =>
    intro acc r hr
    rcases List.mem_cons.mp hr with rfl | hmem
    · rcases mergeStep_covers acc r with ⟨t, ht, hrt⟩
      rcases foldl_mergeStep_mono rest (mergeStep acc r) t ht with ⟨u, hu, htu⟩
      exact ⟨u, hu, insideOf_trans hrt htu⟩
    · exact ih (mergeStep acc a) r hmem

/-- Claim C2 as amended: the merge fold is a deterministic function of the
input list and covers it — every candidate rectangle is contained in the
bounding box of some returned region — but it is neither idempotent nor
order-insensitive (see the counterexample). -/
theorem merge_areas_covers (l : List Rect) (r : Rect) (h : r ∈ l) :
    ∃ s ∈ merge_areas l, r.insideOf s := by
  unfold merge_areas
  exact foldl_mergeStep_covers (l.mergeSort rectSortLe) [] r
    ((List.mergeSort_perm l rectSortLe).mem_iff.mpr h)

/-- Witness for the amended C2 at a concrete input. -/
theorem merge_areas_covers_witness :
    (⟨0, 20, 10, 30⟩ : Rect) ∈ fragileAreas ∧
    ∃ s ∈ merge_areas fragileAreas, Rect.insideOf ⟨0, 20, 10, 30⟩ s :=
  ⟨by with_unfolding_all decide,
   merge_areas_covers fragileAreas ⟨0, 20, 10, 30⟩ (by with_unfolding_all decide)⟩

/-! ## Claim C6 -/

/-- Claim C6: a metadata title whose trimmed form is non-empty and under
100 characters is returned trimmed, whatever the first page contains —
the quantification over every page expresses independence from page
content, excluded regions and junk filtering. -/
theorem extract_title_metadata_precedence (mt : String) (first_page : Page)
    (h1 : (pyStrip mt).toList ≠ []) (h2 : pyLen (pyStrip mt) < 100) :
    extract_title_from_document (some mt) first_page = pyStrip mt := by
  have hmt : mt.toList ≠ [] := by
    intro h
    apply h1
    unfold pyStrip
    rw [h]
    rfl
  unfold extract_title_from_document
  have hb1 : mt.toList.isEmpty = false := by simpa [List.isEmpty_iff] using hmt
  have hb2 : (pyStrip mt).toList.isEmpty = false := by simpa [List.isEmpty_iff] using h1
  simp only [hb1, hb2, Bool.not_false, Bool.and_self, if_true]
  rw [if_pos h2]

/-- A bare page used to instantiate the C6 witness. -/
def plainPage : Page := ⟨100, 100, [], .ok [], .ok []⟩

/-- Witness for C6 at a concrete metadata title and page. -/
theorem extract_title_metadata_precedence_witness :
    (pyStrip " My Document ").toList ≠ [] ∧ pyLen (pyStrip " My Document ") < 100 ∧
    extract_title_from_document (some " My Document ") plainPage = pyStrip " My Document " :=
  ⟨by with_unfolding_all decide, by with_unfolding_all decide,
   extract_title_metadata_precedence " My Document " plainPage
     (by with_unfolding_all decide) (by with_unfolding_all decide)⟩

/-! ## Claim C7 -/

/-- The aggregation criterion in the words of the specification: vertical
gap between the previous bottom edge and the next top edge at most 8
units, rounded font sizes within 1, left edges within 15 units. -/
def spec_should_merge (l1 l2 : LineData) : Bool :=
  decide (|l2.bbox.y0 - l1.bbox.y1| ≤ 8) &&
  decide (|(l1.font_size : ℤ) - l2.font_size| ≤ 1) &&
  decide (|l1.bbox.x0 - l2.bbox.x0| ≤ 15)

/-- The lines absorbed into the run opened before prev, and the remaining
lines: absorb while consecutive lines satisfy the merge criterion. -/
def spec_take_run (prev : LineData) : List LineData → List LineData × List LineData
  | [] => ([], [])
  | l :: ls =>
    if spec_should_merge prev l then
      let p := spec_take_run l ls
      (l :: p.1, p.2)
    else ([], l :: ls)

/-- The remainder of spec_take_run is no longer than its input. -/
theorem spec_take_run_rest_length (prev : LineData) (ls : List LineData) :
    (spec_take_run prev ls).2.length ≤ ls.length := by
  induction ls generalizing prev with
  | nil => simp [spec_take_run]
  | cons l t ih =>
    unfold spec_take_run
    by_cases h : spec_should_merge prev l
    · simp only [h, if_true]
      exact le_trans (ih l) (Nat.le_succ _)
    · simp [h]

/-- The run decomposition in the words of the specification: each run is
its first line (whose font size, bbox and bold flag classify the run)
paired with the lines merged into it. -/
def spec_runs : List LineData → List (LineData × List LineData)
  | [] => []
  | l :: ls => (l, (spec_take_run l ls).1) :: spec_runs (spec_take_run l ls).2
termination_by l => l.length
decreasing_by
  simp only [List.length_cons]
  exact Nat.lt_succ_of_le (spec_take_run_rest_length l ls)

/-- The texts of the merged lines, each preceded by a single joining
space. -/
def spec_join_rest : List LineData → String
  | [] => ""
  | l :: ls => " " ++ l.text ++ spec_join_rest ls

/-- The inner combination loop equals the specification decomposition. -/
theorem combine_go_spec : ∀ (ls : List LineData) (current : LineData) (combined : String)
    (prev : LineData),
    combine_go current combined prev ls =
      (current, combined ++ spec_join_rest (spec_take_run prev ls).1) ::
        (spec_runs (spec_take_run prev ls).2).map (fun r => (r.1, r.1.text ++ spec_join_rest r.2)) := by
  intro ls
  induction ls with
  | nil =>
    intro current combined prev
    simp [combine_go, spec_take_run, spec_runs, spec_join_rest, String.append_empty]
  | cons l t ih =>
    intro current combined prev
    have hcs : should_combine_lines prev l = spec_should_merge prev l := rfl
    have htake : spec_take_run prev (l :: t) =
        if spec_should_merge prev l then ((l :: (spec_take_run l t).1), (spec_take_run l t).2)
        else ([], l :: t) := rfl
    have hcomb : combine_go current combined prev (l :: t) =
        if should_combine_lines prev l then combine_go current (combined ++ " " ++ l.text) l t
        else (current, combined) :: combine_go l l.text l t := rfl
    rw [hcomb, htake, hcs]
    by_cases h : spec_should_merge prev l = true
    · rw [if_pos h, if_pos h, ih current (combined ++ " " ++ l.text) l]
      simp [spec_join_rest, String.append_assoc]
    · rw [if_neg h, if_neg h, ih l l.text l]
      rw [show ((([] : List LineData), l :: t) : List LineData × List LineData).2 = l :: t from rfl,
          show ((([] : List LineData), l :: t) : List LineData × List LineData).1 =
            ([] : List LineData) from rfl]
      rw [spec_runs]
      simp [spec_join_rest, String.append_empty]

/-- Claim C7: the aggregator of extract_outline merges a next line into the
current run exactly under the specified vertical-gap, size and left-edge
conditions, joins the texts of a run with single spaces, and hands the
first line of each run (its font size, bbox and bold flag) to the
classifier. -/
theorem aggregator_matches_spec :
    (∀ l1 l2, should_combine_lines l1 l2 = spec_should_merge l1 l2) ∧
    (∀ lines, combine_lines lines =
      (spec_runs lines).map (fun r => (r.1, r.1.text ++ spec_join_rest r.2))) := by
  constructor
  · intro l1 l2
    rfl
  · intro lines
    cases lines with
    | nil => simp [combine_lines, spec_runs]
    | cons l ls =>
      rw [show combine_lines (l :: ls) = combine_go l l.text l ls from rfl]
      rw [combine_go_spec ls l l.text l]
      rw [spec_runs]
      simp

/-! ## Claim C3 -/

/-- The dedup invariant of the classification loop: emitted texts are
pairwise distinct and every emitted text is recorded in the seen set. -/
def DedupInv (st : List Heading × List String) : Prop :=
  (st.1.map Heading.text).Nodup ∧ ∀ t ∈ st.1.map Heading.text, t ∈ st.2

/-- Appending one heading whose text is fresh preserves the invariant. -/
theorem DedupInv.emit {st : List Heading × List String} (h : DedupInv st)
    (hd : Heading) (hnotseen : hd.text ∉ st.2) :
    DedupInv (st.1 ++ [hd], st.2 ++ [hd.text]) := by
  constructor
  · rw [List.map_append, List.nodup_append]
    refine ⟨h.1, List.nodup_singleton _, ?_⟩
    intro t ht hmem
    rw [List.map_singleton, List.mem_singleton] at hmem
    subst hmem
    exact hnotseen (h.2 _ ht)
  · intro t ht
    rw [List.map_append, List.mem_append] at ht
    rcases ht with ht | ht
    · exact List.mem_append_left _ (h.2 t ht)
    · rw [List.map_singleton, List.mem_singleton] at ht
      subst ht
      exact List.mem_append_right _ (List.mem_singleton.mpr rfl)

/-- One classification step preserves the dedup invariant. -/
theorem classifyRun_dedup (doc : Doc) (pageNum : Nat) (st : List Heading × List String)
    (run : LineData × String) (h : DedupInv st) : DedupInv (classifyRun doc pageNum st run) := by
  unfold classifyRun
  by_cases hseen : run.2 ∈ st.2
  · rw [if_pos hseen]
    exact h
  · rw [if_neg hseen]
    by_cases hsz : sizeRuleFires doc run.2 run.1.font_size = true
    · rw [if_pos hsz]
      exact h.emit _ hseen
    · rw [if_neg hsz]
      by_cases hb : boldRuleFires doc run.2 run.1.font_size run.1.is_bold = true
      · rw [if_pos hb]
        exact h.emit _ hseen
      · rw [if_neg hb]
        exact h

/-- The fold over one page preserves the dedup invariant. -/
theorem processPage_dedup (doc : Doc) (title : String) (st : List Heading × List String)
    (pageNum : Nat) (page : Page) (h : DedupInv st) :
    DedupInv (processPage doc title st pageNum page) :=
  foldl_inv DedupInv (classifyRun doc pageNum)
    (fun a b ha => classifyRun_dedup doc pageNum a b ha) _ st h

/-- Claim C3: the outline emitted by extract_outline never contains two
headings with identical text, across the whole document: the emitted
texts form a list without duplicates. -/
theorem extract_outline_dedup (doc : Doc) :
    ((extract_outline doc).outline.map Heading.text).Nodup := by
  unfold extract_outline
  rcases hp : doc.pages with _ | ⟨p0, ps⟩
  · simp
  · simp only
    by_cases hh : (docRecordedSizes doc).isEmpty
    · rw [if_pos hh]
      simp
    · rw [if_neg hh]
      simp only
      have hinv : DedupInv ((p0 :: ps).enum.foldl
          (fun st np => processPage doc (extract_title_from_document doc.metadataTitle p0) st np.1 np.2)
          ([], [])) := by
        refine foldl_inv DedupInv _ ?_ _ _ ?_
        · intro a b ha
          exact processPage_dedup doc _ a b.1 b.2 ha
        · exact ⟨List.nodup_nil, by intro t ht; exact absurd ht (List.not_mem_nil t)⟩
      exact hinv.1

/-! ## Claim C9 -/

/-- The level-shape invariant: every emitted heading has label H followed
by a number between 1 and the heading-size count plus two. -/
def LevelInv (doc : Doc) (st : List Heading × List String) : Prop :=
  ∀ h ∈ st.1, ∃ k, h.level = "H" ++ toString k ∧ 1 ≤ k ∧ k ≤ (heading_sizes doc).length + 2

/-- The bold fallback only ever yields levels N+1 and N+2. -/
theorem bold_rule_level_cases (n : Nat) (body fs : ℤ) (text : String) :
    bold_rule_level n body fs text = n + 1 ∨ bold_rule_level n body fs text = n + 2 := by
  unfold bold_rule_level
  by_cases h1 : (decide (fs = body) && pyEndsWith (pyStrip text) ":") = true
  · rw [if_pos h1]
    right
    rfl
  · rw [if_neg h1]
    by_cases h2 : body < fs
    · rw [if_pos h2]
      left
      rfl
    · rw [if_neg h2]
      right
      rfl

/-- One classification step preserves the level-shape invariant. -/
theorem classifyRun_levels (doc : Doc) (pageNum : Nat) (st : List Heading × List String)
    (run : LineData × String) (h : LevelInv doc st) :
    LevelInv doc (classifyRun doc pageNum st run) := by
  have hext : ∀ (hd : Heading),
      (∃ k, hd.level = "H" ++ toString k ∧ 1 ≤ k ∧ k ≤ (heading_sizes doc).length + 2) →
      LevelInv doc (st.1 ++ [hd], st.2 ++ [run.2]) := by
    intro hd hhd h2 hmem
    rcases List.mem_append.mp hmem with hmem | hmem
    · exact h h2 hmem
    · rw [List.mem_singleton] at hmem
      subst hmem
      exact hhd
  unfold classifyRun
  by_cases hseen : run.2 ∈ st.2
  · rw [if_pos hseen]
    exact h
  · rw [if_neg hseen]
    by_cases hsz : sizeRuleFires doc run.2 run.1.font_size = true
    · rw [if_pos hsz]
      apply hext
      refine ⟨(heading_sizes doc).indexOf run.1.font_size + 1, rfl, Nat.le_add_left 1 _, ?_⟩
      have hmem : run.1.font_size ∈ heading_sizes doc := by
        unfold sizeRuleFires at hsz
        simp only [Bool.and_eq_true, decide_eq_true_eq] at hsz
        exact hsz.1.1.1
      have hlt := List.indexOf_lt_length.mpr hmem
      omega
    · rw [if_neg hsz]
      by_cases hb : boldRuleFires doc run.2 run.1.font_size run.1.is_bold = true
      · rw [if_pos hb]
        apply hext
        refine ⟨bold_rule_level (heading_sizes doc).length (body_size doc) run.1.font_size run.2,
          rfl, ?_, ?_⟩
        · rcases bold_rule_level_cases (heading_sizes doc).length (body_size doc)
            run.1.font_size run.2 with hc | hc <;> omega
        · rcases bold_rule_level_cases (heading_sizes doc).length (body_size doc)
            run.1.font_size run.2 with hc | hc <;> omega
      · rw [if_neg hb]
        exact h

/-- The fold over one page preserves the level-shape invariant. -/
theorem processPage_levels (doc : Doc) (title : String) (st : List Heading × List String)
    (pageNum : Nat) (page : Page) (h : LevelInv doc st) :
    LevelInv doc (processPage doc title st pageNum page) :=
  foldl_inv (LevelInv doc) (classifyRun doc pageNum)
    (fun a b ha => classifyRun_levels doc pageNum a b ha) _ st h

/-- Claim C9: every heading record of extract_outline carries a level of
the form H k with 1 ≤ k ≤ N+2 for N the number of distinct heading sizes;
the size rule always emits the label of a rank at most N, and the bold
fallback only ever emits N+1 or N+2. -/
theorem heading_level_bounds (doc : Doc) :
    (∀ h ∈ (extract_outline doc).outline, ∃ k, h.level = "H" ++ toString k ∧ 1 ≤ k ∧
        k ≤ (heading_sizes doc).length + 2) ∧
    (∀ fs ∈ heading_sizes doc, ∃ k, size_rule_label doc fs = "H" ++ toString k ∧ 1 ≤ k ∧
        k ≤ (heading_sizes doc).length) ∧
    (∀ (n : Nat) (body fs : ℤ) (text : String),
        bold_rule_level n body fs text = n + 1 ∨ bold_rule_level n body fs text = n + 2) := by
  refine ⟨?_, ?_, fun n body fs text => bold_rule_level_cases n body fs text⟩
  · unfold extract_outline
    rcases hp : doc.pages with _ | ⟨p0, ps⟩
    · simp
    · simp only
      by_cases hh : (docRecordedSizes doc).isEmpty
      · rw [if_pos hh]
        simp
      · rw [if_neg hh]
        simp only
        exact foldl_inv (LevelInv doc) _
          (fun a b ha => processPage_levels doc _ a b.1 b.2 ha) _ _
          (by intro h2 hmem; exact absurd hmem (List.not_mem_nil h2))
  · intro fs hfs
    refine ⟨(heading_sizes doc).indexOf fs + 1, rfl, Nat.le_add_left 1 _, ?_⟩
    have hlt := List.indexOf_lt_length.mpr hfs
    omega

/-- A line of a demonstration page holding one size-20 heading line. -/
def demoLine1 : Line := ⟨⟨10, 10, 90, 20⟩, [⟨"Hello World", 20, "f", 0⟩]⟩

/-- A body-text line of the demonstration page at size 10. -/
def demoLine2 : Line := ⟨⟨10, 50, 90, 60⟩, [⟨"body text", 10, "f", 0⟩, ⟨"more", 10, "f", 0⟩]⟩

/-- The block of the demonstration page. -/
def demoBlock : Block := ⟨0, ⟨10, 10, 90, 60⟩, [demoLine1, demoLine2]⟩

/-- The demonstration page: no tables, no drawings, two text lines. -/
def demoPage : Page := ⟨100, 100, [demoBlock], .ok [], .ok []⟩

/-- A one-page document whose outline is one H1 heading Hello World. -/
def demoDoc : Doc := ⟨some "T", [demoPage]⟩

/-- Witness for C9 on a concrete document and heading. -/
theorem heading_level_bounds_witness :
    (∃ k, (⟨"H1", "Hello World", 1⟩ : Heading).level = "H" ++ toString k ∧ 1 ≤ k ∧
        k ≤ (heading_sizes demoDoc).length + 2) ∧
    (∃ k, size_rule_label demoDoc 20 = "H" ++ toString k ∧ 1 ≤ k ∧
        k ≤ (heading_sizes demoDoc).length) :=
  ⟨(heading_level_bounds demoDoc).1 ⟨"H1", "Hello World", 1⟩ (by with_unfolding_all decide),
   (heading_level_bounds demoDoc).2.1 20 (by with_unfolding_all decide)⟩

/-! ## Claim C5 -/

/-- The Counter key list never repeats a value. -/
theorem insertionOrderKeys_nodup (l : List ℤ) : (insertionOrderKeys l).Nodup := by
  have go : ∀ (l : List ℤ) (acc : List ℤ), acc.Nodup →
      (l.foldl (fun acc a => if a ∈ acc then acc else acc ++ [a]) acc).Nodup := by
    intro l
    induction l with
    | nil => intro acc h; exact h
    | cons a t ih =>
      intro acc h
      simp only [List.foldl_cons]
      by_cases hmem : a ∈ acc
      · rw [if_pos hmem]
        exact ih acc h
      · rw [if_neg hmem]
        refine ih _ ?_
        rw [List.nodup_append]
        exact ⟨h, List.nodup_singleton _, by rw [List.disjoint_singleton]; exact hmem⟩
  exact go l [] List.nodup_nil

/-- heading_sizes is strictly decreasing. -/
theorem heading_sizes_pairwise_gt (doc : Doc) :
    (heading_sizes doc).Pairwise (fun a b => b < a) := by
  unfold heading_sizes
  have hsorted := @List.sorted_mergeSort ℤ (fun a b : ℤ => decide (b ≤ a))
    (by intro a b c hab hbc; simp only [decide_eq_true_eq] at hab hbc ⊢; exact le_trans hbc hab)
    (by intro a b; simp only [Bool.or_eq_true, decide_eq_true_eq]; exact le_total b a)
    ((insertionOrderKeys (docRecordedSizes doc)).filter (fun s => decide (body_size doc < s)))
  have hnd : (((insertionOrderKeys (docRecordedSizes doc)).filter
      (fun s => decide (body_size doc < s))).mergeSort (fun a b : ℤ => decide (b ≤ a))).Nodup :=
    (List.mergeSort_perm _ _).nodup_iff.mpr ((insertionOrderKeys_nodup _).filter _)
  refine (hsorted.and hnd).imp ?_
  intro a b hab
  rcases hab with ⟨h1, h2⟩
  simp only [decide_eq_true_eq] at h1
  exact lt_of_le_of_ne h1 (fun h => h2 h.symm)

/-- Membership in heading_sizes is exactly being a histogram key above the
body size. -/
theorem heading_sizes_mem (doc : Doc) (s : ℤ) :
    s ∈ heading_sizes doc ↔
      s ∈ insertionOrderKeys (docRecordedSizes doc) ∧ body_size doc < s := by
  unfold heading_sizes
  rw [(List.mergeSort_perm _ _).mem_iff, List.mem_filter]
  simp

/-- In a strictly decreasing list, larger members sit at smaller indices. -/
theorem indexOf_lt_of_pairwise_gt : ∀ (l : List ℤ), l.Pairwise (fun a b => b < a) →
    ∀ {a b : ℤ}, a ∈ l → b ∈ l → b < a → l.indexOf a < l.indexOf b := by
  intro l
  induction l with
  | nil => intro _ a b ha; exact absurd ha (List.not_mem_nil _)
  | cons c t ih =>
    intro hp a b ha hb hab
    rw [List.pairwise_cons] at hp
    by_cases hac : a = c
    · subst hac
      rw [List.indexOf_cons_self]
      have hbc : b ≠ a := fun h => absurd hab (by rw [h]; exact lt_irrefl a)
      rw [List.indexOf_cons_ne t (fun h => hbc h.symm)]
      exact Nat.succ_pos _
    · have hat : a ∈ t := by
        rcases List.mem_cons.mp ha with h | h
        · exact absurd h hac
        · exact h
      have hca : a < c := hp.1 a hat
      have hbc : b ≠ c := fun h => absurd (lt_trans hab hca) (by rw [h]; exact lt_irrefl c)
      have hbt : b ∈ t := by
        rcases List.mem_cons.mp hb with h | h
        · exact absurd h hbc
        · exact h
      rw [List.indexOf_cons_ne t (fun h => hac h.symm),
          List.indexOf_cons_ne t (fun h => hbc h.symm)]
      exact Nat.succ_lt_succ (ih hp.2 hat hbt hab)

/-- Claim C5: the level map is keyed by exactly the histogram sizes
strictly above the body size, sorted strictly descending, each size
labelled H(index+1) with H1 for the largest, and a larger heading size
always receives a strictly smaller numeric rank. -/
theorem level_rank_monotone (doc : Doc) (s1 s2 : ℤ)
    (h1 : s1 ∈ heading_sizes doc) (h2 : s2 ∈ heading_sizes doc) (h12 : s2 < s1) :
    (∀ s : ℤ, s ∈ heading_sizes doc ↔
        s ∈ insertionOrderKeys (docRecordedSizes doc) ∧ body_size doc < s) ∧
    (heading_sizes doc).Pairwise (fun a b => b < a) ∧
    size_rule_label doc s1 = "H" ++ toString ((heading_sizes doc).indexOf s1 + 1) ∧
    (heading_sizes doc).indexOf s1 + 1 < (heading_sizes doc).indexOf s2 + 1 := by
  refine ⟨fun s => heading_sizes_mem doc s, heading_sizes_pairwise_gt doc, rfl, ?_⟩
  exact Nat.succ_lt_succ (indexOf_lt_of_pairwise_gt _ (heading_sizes_pairwise_gt doc) h1 h2 h12)

/-- A line carrying the four spans of the rank-witness histogram. -/
def rankLine : Line :=
  ⟨⟨10, 10, 90, 20⟩,
   [⟨"a", 10, "f", 0⟩, ⟨"b", 10, "f", 0⟩, ⟨"c", 12, "f", 0⟩, ⟨"d", 14, "f", 0⟩]⟩

/-- The rank-witness page: body size 10, heading sizes 14 and 12. -/
def rankPage : Page := ⟨100, 100, [⟨0, ⟨10, 10, 90, 20⟩, [rankLine]⟩], .ok [], .ok []⟩

/-- The rank-witness document. -/
def rankDoc : Doc := ⟨none, [rankPage]⟩

/-- Witness for C5 at the concrete sizes 14 and 12. -/
theorem level_rank_monotone_witness :
    (14 : ℤ) ∈ heading_sizes rankDoc ∧ (12 : ℤ) ∈ heading_sizes rankDoc ∧
    (heading_sizes rankDoc).indexOf (14 : ℤ) + 1 < (heading_sizes rankDoc).indexOf (12 : ℤ) + 1 :=
  ⟨by with_unfolding_all decide, by with_unfolding_all decide,
   (level_rank_monotone rankDoc 14 12 (by with_unfolding_all decide)
     (by with_unfolding_all decide) (by decide)).2.2.2⟩

end HeadingExtractor
